import Mathlib

/-!
Verification of the Canvas crawler core (canvascrawler package): link
classification, storage / archive expansion, content handlers, and the
breadth-first traversal engine.  Python values are embedded shallowly:
dictionaries become association lists over a scalar JSON value type,
machine-independent Python integers become `Int`/`Nat`, and the external
collaborators (Canvas API client, web client, BeautifulSoup href
extractor) become explicit function parameters.
-/

/-- Scalar JSON-ish value, the payload type of Python dict fields that the
crawler core reads (the nested fields the core never inspects are not
modelled). -/
inductive JVal where
  | null : JVal
  | bool (b : Bool) : JVal
  | num (n : Int) : JVal
  | str (s : String) : JVal
deriving DecidableEq, Repr

/-- A Python dict as an association list (first binding wins on lookup). -/
def Dict : Type := List (String × JVal)

instance : DecidableEq Dict := by
  unfold Dict
  infer_instance

instance : Repr Dict := by
  unfold Dict
  infer_instance

/-- Python truthiness of a scalar value (`bool(v)`). -/
def jTruthy : JVal → Bool
  | .null => false
  | .bool b => b
  | .num n => n != 0
  | .str s => s != ""

/-- Embeds `str(v)` as used by f-string interpolation in the handlers. -/
def jStrOf : JVal → String
  | .null => "None"
  | .bool true => "True"
  | .bool false => "False"
  | .num n => toString n
  | .str s => s

/-- Embeds `d.get(k)` / `d[k]`: lookup returning `JVal.null` for a missing key
(the handlers only index keys that are present, so the KeyError path is
collapsed to `null`). -/
def dget (d : Dict) (k : String) : JVal :=
  match List.lookup k (d : List (String × JVal)) with
  | some v => v
  | none => JVal.null

/-- Embeds `d.get(k, default)`. -/
def dgetD (d : Dict) (k : String) (v : JVal) : JVal :=
  match List.lookup k (d : List (String × JVal)) with
  | some w => w
  | none => v

/-- Embeds `k in d`. -/
def dhas (d : Dict) (k : String) : Bool :=
  (List.lookup k (d : List (String × JVal))).isSome

/-- Python `a or b` on two scalar values: the first truthy operand. -/
def pyOrJ (a b : JVal) : JVal :=
  if jTruthy a then a else b

/-- Python `a or b` where the operands are optional strings (an absent
key is `None`, an empty string is falsy). -/
def pyOrStr (a b : Option String) : Option String :=
  match a with
  | some s => if s ≠ "" then some s else match b with
      | some t => if t ≠ "" then some t else none
      | none => none
  | none => match b with
      | some t => if t ≠ "" then some t else none
      | none => none

/-- An item identifier inside a crawl context: Canvas uses `None` for the
list seeds, numeric ids for most content, and string slugs/URLs for pages
and external links. -/
inductive ItemId where
  | none : ItemId
  | num (n : Int) : ItemId
  | str (s : String) : ItemId
deriving DecidableEq, Repr

/-- A crawl context dict: `{"course_id": ..., "item_id": ..., "depth": ...}`. -/
structure Context where
  course_id : Int
  item_id : ItemId
  depth : Nat
deriving DecidableEq, Repr

/-! ## Link classification (`canvascrawler/utils.py`) -/

/-- Numeric value of a run of decimal digit characters. -/
def natOfDigits (l : List Char) : Nat :=
  l.foldl (fun n c => 10 * n + (c.toNat - 48)) 0

/-- Anchored literal-prefix consumption: `dropLit lit l` consumes `lit`
from the front of `l` (the anchored part of an `re.match`). -/
def dropLit : List Char → List Char → Option (List Char)
  | [], l => some l
  | _ :: _, [] => Option.none
  | c :: cs, d :: ds => if c = d then dropLit cs ds else Option.none

/-- Greedy `\d+`: a nonempty maximal run of digits, returning its value
and the rest. -/
def digits1 (l : List Char) : Option (Nat × List Char) :=
  let p := l.span Char.isDigit
  if p.1 = [] then Option.none else some (natOfDigits p.1, p.2)

/-- Greedy `[^/]+`: a nonempty maximal run of non-slash characters. -/
def nonSlash1 (l : List Char) : Option (List Char) :=
  let p := l.span (fun c => c ≠ '/')
  if p.1 = [] then Option.none else some p.1

def hexVal (c : Char) : Nat :=
  if c.isDigit then c.toNat - 48
  else if 'a' ≤ c ∧ c ≤ 'f' then c.toNat - 87
  else c.toNat - 55

def isHexDigitChar (c : Char) : Bool :=
  c.isDigit || ('a' ≤ c && c ≤ 'f') || ('A' ≤ c && c ≤ 'F')

/-- Model of `urllib.parse.unquote` restricted to single-byte escapes:
`%XX` becomes the character with that code, malformed escapes stay as-is. -/
def unquoteChars : List Char → List Char
  | [] => []
  | '%' :: h1 :: h2 :: rest =>
      if isHexDigitChar h1 && isHexDigitChar h2 then
        Char.ofNat (16 * hexVal h1 + hexVal h2) :: unquoteChars rest
      else
        '%' :: unquoteChars (h1 :: h2 :: rest)
  | c :: rest => c :: unquoteChars rest

/-- One row of `_CANVAS_PATTERNS`: an anchored matcher from a path to a
`(content_type, item_id)` pair. -/
def PatternRow : Type := List Char → Option (String × ItemId)

/-- Row `/courses/\d+/pages/([^/]+)` with `unquote` applied to the slug. -/
def matchPagePattern : PatternRow := fun l => do
  let l ← dropLit "/courses/".toList l
  let (_, l) ← digits1 l
  let l ← dropLit "/pages/".toList l
  let slug ← nonSlash1 l
  pure ("page", ItemId.str (String.mk (unquoteChars slug)))

/-- Rows `/courses/\d+/<seg>/(\d+)` for the numeric-id content rows. -/
def matchCourseNumPattern (seg ctype : String) : PatternRow := fun l => do
  let l ← dropLit "/courses/".toList l
  let (_, l) ← digits1 l
  let l ← dropLit ("/" ++ seg ++ "/").toList l
  let (n, _) ← digits1 l
  pure (ctype, ItemId.num (Int.ofNat n))

/-- Row `/files/(\d+)`. -/
def matchBareFilesPattern : PatternRow := fun l => do
  let l ← dropLit "/files/".toList l
  let (n, _) ← digits1 l
  pure ("file", ItemId.num (Int.ofNat n))

/-- The ordered pattern table `_CANVAS_PATTERNS` (first match wins). -/
def canvasPatterns : List PatternRow :=
  [ matchPagePattern
  , matchCourseNumPattern "assignments" "assignment"
  , matchCourseNumPattern "discussion_topics" "discussion"
  , matchCourseNumPattern "quizzes" "quiz"
  , matchBareFilesPattern
  , matchCourseNumPattern "files" "file" ]

/-- First successful row of an ordered matcher table. -/
def firstMatch (rows : List PatternRow) (l : List Char) : Option (String × ItemId) :=
  match rows with
  | [] => Option.none
  | r :: rest =>
      match r l with
      | some v => some v
      | none => firstMatch rest l

/-- Valid URL scheme prefix characters (RFC 3986 / `urllib.parse`). -/
def isSchemeChar (c : Char) : Bool :=
  c.isAlphanum || c = '+' || c = '-' || c = '.'

/-- If `l` starts with `scheme:`, the remainder after the colon. -/
def splitScheme (l : List Char) : Option (List Char) :=
  let pre := l.takeWhile (fun c => c ≠ ':')
  if pre.length < l.length ∧ pre ≠ [] ∧
      (pre.headD ' ').isAlpha ∧ pre.all isSchemeChar then
    some (l.drop (pre.length + 1))
  else
    Option.none

/-- Model of `urllib.parse.urlparse(href).path` for the URL shapes the
crawler meets: fragment and query are cut off, and a `scheme://netloc`
prefix (or bare `//netloc`) is dropped up to the first slash of the path. -/
def urlPathOf (l : List Char) : List Char :=
  let noFrag := l.takeWhile (fun c => c ≠ '#')
  let noQ := noFrag.takeWhile (fun c => c ≠ '?')
  match splitScheme noQ with
  | some rest =>
      match rest with
      | '/' :: '/' :: tail => tail.dropWhile (fun c => c ≠ '/')
      | _ => rest
  | none =>
      match noQ with
      | '/' :: '/' :: tail => tail.dropWhile (fun c => c ≠ '/')
      | _ => noQ

/-- Embeds `href.startswith(prefix)` (character-level, kernel-reducible). -/
def pyStartsWith (href pre : String) : Bool :=
  List.isPrefixOf pre.toList href.toList

/-- The path `classify_link` matches against: the raw suffix after the
base URL when `href.startswith(base_url)`, the parsed URL path otherwise. -/
def classifyPathOf (href base : String) : List Char :=
  if pyStartsWith href base then (href.toList).drop base.toList.length
  else urlPathOf href.toList

/-- Embeds `classify_link(href, base_url)`: strip the base URL prefix if present
(otherwise take the parsed path), then try the ordered pattern table. -/
def classify_link (href base : String) : Option (String × ItemId) :=
  firstMatch canvasPatterns (classifyPathOf href base)


/-! ## Storage layer (`canvascrawler/storage.py`) -/

/-- Embeds `str.split(sep)` semantics for a one-character separator: empty
fields are kept, `"".split(sep)` is `[""]`. -/
def splitOnChar (sep : Char) : List Char → List (List Char)
  | [] => [[]]
  | c :: rest =>
      let r := splitOnChar sep rest
      if c = sep then [] :: r
      else
        match r with
        | h :: t => (c :: h) :: t
        | [] => [[c]]

/-- Embeds `str.split("/")`. -/
def splitSlash (l : List Char) : List (List Char) :=
  splitOnChar '/' l

/-- Join segments with a separator (the char-level `sep.join(parts)`). -/
def joinSep (sep : Char) : List (List Char) → List Char
  | [] => []
  | [p] => p
  | p :: q :: rest => p ++ sep :: joinSep sep (q :: rest)

/-- Embeds `str.strip()` on both ends. -/
def stripWs (l : List Char) : List Char :=
  ((l.dropWhile Char.isWhitespace).reverse.dropWhile Char.isWhitespace).reverse

/-- One step of the `..`-resolving fold in `_sanitize_zip_member_path`:
empty and `.` segments are dropped, `..` pops the last kept segment, and
anything else is kept. -/
def normStep (acc : List (List Char)) (part : List Char) : List (List Char) :=
  if part = [] ∨ part = ['.'] then acc
  else if part = ['.', '.'] then acc.dropLast
  else acc ++ [part]

/-- The sanitized segment list of a zip member name: backslashes become
slashes, surrounding whitespace and a drive-letter prefix are stripped,
leading slashes are removed, then segments are folded with `normStep`. -/
def sanitizeParts (name : String) : List (List Char) :=
  let l := stripWs (name.toList.map (fun c => if c = '\\' then '/' else c))
  let l := match l with
    | _ :: ':' :: rest => rest
    | other => other
  let l := l.dropWhile (fun c => c = '/')
  (splitSlash l).foldl normStep []

/-- Embeds `StorageManager._sanitize_zip_member_path`: `None` when nothing
survives sanitization, otherwise the kept segments joined with `/`. -/
def sanitize_zip_member_path (name : String) : Option String :=
  let parts := sanitizeParts name
  if parts.isEmpty then Option.none
  else some (String.mk (joinSep '/' parts))

/-- Resolution of a relative segment list against a root directory, with
`..` climbing one level: the semantics `os.path.realpath` gives the
joined path (symlinks aside). -/
def resolvePath (root : List (List Char)) (parts : List (List Char)) : List (List Char) :=
  parts.foldl normStep root

/-- A path segment that cannot climb or vanish. -/
def goodSeg (p : List Char) : Prop :=
  ¬(p = [] ∨ p = ['.'] ∨ p = ['.', '.'])

/-- Model of `os.path.splitext`: split off the extension at the last dot of the
final path component, unless that component consists only of leading
dots. -/
def splitext (s : String) : String × String :=
  let rev := s.toList.reverse
  let tail := rev.takeWhile (fun c => ¬(c = '.' ∨ c = '/'))
  match rev.drop tail.length with
  | '.' :: baseRev =>
      if (baseRev.takeWhile (fun c => c ≠ '/')).any (fun c => c ≠ '.') then
        (String.mk baseRev.reverse, String.mk ('.' :: tail.reverse))
      else (s, "")
  | _ => (s, "")


/-- Embeds `StorageManager._dedupe_path` against an explicit set of existing
paths; the unbounded `while` loop is bounded by a fuel argument that the
caller sets above the number of existing paths. -/
def dedupeSearch (existing : List String) (base ext : String) : Nat → Nat → String
  | n, 0 => base ++ "(" ++ toString n ++ ")" ++ ext
  | n, fuel + 1 =>
      let cand := base ++ "(" ++ toString n ++ ")" ++ ext
      if cand ∈ existing then dedupeSearch existing base ext (n + 1) fuel
      else cand

def dedupe_path (existing : List String) (path : String) : String :=
  if path ∈ existing then
    let p := splitext path
    dedupeSearch existing p.1 p.2 1 (existing.length + 1)
  else path

/-- Embeds `StorageManager._adjust_json_rel_for_dedup`: mirror the (possibly
deduped) extracted path under `json_output/files/<pid>__zip/`. Here
`dest` is already relative to the base directory. -/
def adjust_json_rel_for_dedup (jsonRel dest pid : String) : String :=
  let pre := "files/" ++ pid ++ "__zip/"
  if pyStartsWith dest pre then
    "json_output/files/" ++ pid ++ "__zip/" ++
      String.mk ((dest.toList).drop pre.toList.length) ++ ".json"
  else jsonRel

/-- Per-member artifact naming of one zip extraction pass
(`extract_zip_recursive_using_parent_json`, single archive, file members
only): sanitize the member name, join under the archive root, dedupe
against existing files, and mirror the JSON record path.  Returns the
grown existing-file set and the `(destination, json_path)` pairs in
member order. -/
def extractZipMembers (pid : String) (existing0 : List String)
    (memberNames : List String) : List String × List (String × String) :=
  let root := "files/" ++ pid ++ "__zip"
  memberNames.foldl
    (fun acc name =>
      match sanitize_zip_member_path name with
      | Option.none => acc
      | some rel =>
          let dest0 := root ++ "/" ++ rel
          let dest := dedupe_path acc.1 dest0
          let jsonRel0 := "json_output/files/" ++ pid ++ "__zip/" ++ rel ++ ".json"
          let jsonRel := adjust_json_rel_for_dedup jsonRel0 dest pid
          (dest :: acc.1, acc.2 ++ [(dest, jsonRel)]))
    (existing0, [])

/-- Embeds `StorageManager.write_json` filename: type, then `_<id>` when the
record has an `id` key, then `.json`. -/
def write_json_name (r : Dict) : String :=
  let suffix := if dhas r "id" then "_" ++ jStrOf (dget r "id") else ""
  jStrOf (dget r "type") ++ suffix ++ ".json"

/-- The JSON output tree as a map from path to the record last written
there (`json.dump` is a deterministic function of the record, so
byte-identical output is record equality). -/
def JsonFS : Type := String → Option Dict

/-- Embeds `StorageManager.write_json`: open the derived path for writing,
truncating any previous contents. -/
def write_json (fs : JsonFS) (r : Dict) : JsonFS :=
  fun p => if p = "json_output/" ++ write_json_name r then some r else fs p

/-! ## Content handlers (`canvascrawler/handlers.py`) -/

/-- Filesystem / network / logging effects a handler's `save` path emits,
in order (log messages themselves are not modelled). -/
inductive Effect where
  | writeJson (r : Dict) : Effect
  | writeHtml (body path : String) : Effect
  | download (url path : String) : Effect
  | logWarn : Effect
  | logInfo : Effect
deriving DecidableEq, Repr

/-- Effects that touch the output tree or the network (as opposed to the
log stream). -/
def isFsEffect : Effect → Bool
  | .writeJson _ => true
  | .writeHtml _ _ => true
  | .download _ _ => true
  | _ => false

def fsWrites (l : List Effect) : List Effect :=
  l.filter isFsEffect

/-- The context dict a handler receives: the crawler's context plus the
injected `content_type` key. -/
structure HCtx where
  content_type : String
  course_id : Int
  item_id : ItemId
  depth : Nat
deriving DecidableEq, Repr

def mkHCtx (ct : String) (ctx : Context) : HCtx :=
  ⟨ct, ctx.course_id, ctx.item_id, ctx.depth⟩

def itemIdToJ : ItemId → JVal
  | .none => JVal.null
  | .num n => JVal.num n
  | .str s => JVal.str s

/-- A handler's fetched payload: Canvas object endpoints return a dict,
list endpoints return a list of dicts (`isinstance(data, dict)` is the
discriminator the handlers use). -/
inductive Raw where
  | dict (d : Dict) : Raw
  | arr (l : List Dict) : Raw
deriving DecidableEq

/-- Embeds `ContentHandler.parse_locked`: the default locked-content stub.
`context["content_type"]` is always present because the crawler injects
it before dispatch, so the `"unknown"` fallback is not reachable here. -/
def parse_locked (ctx : HCtx) (d : Dict) : Dict :=
  let idv := dgetD d "id" (itemIdToJ ctx.item_id)
  [ ("type", JVal.str ctx.content_type)
  , ("id", idv)
  , ("title", pyOrJ (dget d "title") (dget d "name"))
  , ("url", pyOrJ (dget d "html_url") (dget d "url"))
  , ("depth", JVal.num ctx.depth)
  , ("locked_for_user", JVal.bool true)
  , ("lock_explanation", pyOrJ (dget d "lock_explanation") (dget d "unlock_at"))
  , ("body", JVal.str "")
  , ("file_path", JVal.str ("locked/" ++ jStrOf idv ++ ".html")) ]

/-- Embeds `ContentHandler.save` (the default): write the JSON record, and write
the HTML body only when `parsed.get("body")` is truthy. -/
def defaultSave (p : Dict) : List Effect :=
  [Effect.writeJson p] ++
    (if jTruthy (dget p "body") then
      [Effect.writeHtml (jStrOf (dget p "body")) (jStrOf (dget p "file_path"))]
    else [])

/-- Embeds `ContentHandler.run`: fetch produced `data`; a dict payload with
`locked_for_user is True` takes the locked-stub path (save, then a
warning log), anything else is parsed and saved normally. -/
def contentHandlerRun (parse : HCtx → Raw → Dict) (saveFn : Dict → List Effect)
    (ctx : HCtx) (data : Raw) : Option Dict × List Effect :=
  match data with
  | .dict d =>
      if dget d "locked_for_user" = JVal.bool true then
        let p := parse_locked ctx d
        (some p, saveFn p ++ [Effect.logWarn])
      else
        let p := parse ctx data
        (some p, saveFn p)
  | .arr _ =>
      let p := parse ctx data
      (some p, saveFn p)

/-- Embeds `AssignmentHandler.parse`. -/
def assignmentParse (ctx : HCtx) (d : Dict) : Dict :=
  [ ("id", dget d "id")
  , ("title", dget d "name")
  , ("type", JVal.str "assignment")
  , ("due_at", dget d "due_at")
  , ("points_possible", dget d "points_possible")
  , ("depth", JVal.num ctx.depth)
  , ("url", dget d "html_url")
  , ("body", dgetD d "description" (JVal.str ""))
  , ("file_path", JVal.str ("assignments/" ++ jStrOf (dget d "id") ++ ".html")) ]

/-- Embeds `AssignmentHandler.run`: locked handling first, then the New-Quiz
safety net (`quiz_lti is True` returns no record after an info log), then
the normal parse/save path.  `get_assignment` returns an object, so the
payload is a dict. -/
def assignmentHandlerRun (ctx : HCtx) (d : Dict) : Option Dict × List Effect :=
  if dget d "locked_for_user" = JVal.bool true then
    let p := parse_locked ctx d
    (some p, defaultSave p ++ [Effect.logWarn])
  else if dget d "quiz_lti" = JVal.bool true then
    (Option.none, [Effect.logInfo])
  else
    let p := assignmentParse ctx d
    (some p, defaultSave p)

/-- Embeds `FileHandler.parse`: extension from the filename's last dot, falling
back to the content-type subtype.  (A list payload would raise in the
source and is unreachable for the object endpoint; it maps to the empty
record.) -/
def fileParse (ctx : HCtx) (data : Raw) : Dict :=
  match data with
  | .dict d =>
      let filename := jStrOf (dget d "filename")
      let ext :=
        if filename.toList.contains '.' then
          String.mk ((splitOnChar '.' filename.toList).getLastD [])
        else
          String.mk ((splitOnChar '/' (jStrOf (dget d "content-type")).toList).getLastD [])
      [ ("id", dget d "id")
      , ("title", dget d "display_name")
      , ("type", JVal.str "file")
      , ("extension", JVal.str ext)
      , ("url", dget d "url")
      , ("depth", JVal.num ctx.depth)
      , ("file_path", JVal.str ("files/" ++ jStrOf (dget d "id") ++ "." ++ ext)) ]
  | .arr _ => []

/-- Embeds `FileHandler.save`: write the JSON record, then download the binary
when the record has a truthy `url` (otherwise only a warning is logged). -/
def fileSave (p : Dict) : List Effect :=
  [Effect.writeJson p] ++
    (if jTruthy (dget p "url") then
      [Effect.download (jStrOf (dget p "url")) (jStrOf (dget p "file_path"))]
    else [Effect.logWarn])

/-- Embeds `FileHandler.run`: the inherited `ContentHandler.run` with the
overridden save. -/
def fileHandlerRun (ctx : HCtx) (data : Raw) : Option Dict × List Effect :=
  contentHandlerRun fileParse fileSave ctx data

/-- The keys of `HandlerFactory.registry`. -/
def registryKeys : List String :=
  [ "syllabus", "modules", "announcements", "assignments", "module", "page"
  , "discussion", "assignment", "file", "quiz", "new_quiz", "external_link" ]

/-- Embeds `HandlerFactory.has_handler`. -/
def has_handler (ct : String) : Bool :=
  registryKeys.contains ct

/-! ## Traversal engine (`canvascrawler/crawler.py`) -/

structure IdObj where
  id : Int
deriving DecidableEq, Repr

/-- The module-item fields `discover_links` reads.  Bracket-indexed
fields are total (present on every Canvas module item of the relevant
type); `.get`-accessed fields are optional. -/
structure ModuleItem where
  type : String
  quiz_lti : Option JVal
  page_url : String
  content_id : Int
  external_url : Option String
  url : Option String
  id : Int
deriving DecidableEq, Repr

/-- The Canvas API client capability surface the engine consumes (an
external collaborator, passed in as functions). -/
structure Client where
  get_modules : Int → List IdObj
  get_module_items : Int → ItemId → List ModuleItem
  get_assignments : Int → List IdObj
  get_pages : Int → List IdObj
  get_announcements : Int → List IdObj
  server_url : String

/-- The crawl loop's collaborators: the API client, the dispatched
handler (`HandlerFactory.get_handler(...).run`, with `Except.error`
standing for a raised exception), and the BeautifulSoup href extractor. -/
structure Env where
  client : Client
  runHandler : String → HCtx → Except Unit (Option Dict)
  extractHrefs : String → List String

/-- Embeds `CanvasCrawler._seed`: the only uncommented seed row is the
announcements list at depth 0. -/
def _seed (cid : Int) : List (String × Context) :=
  [("announcements", ⟨cid, ItemId.none, 0⟩)]

/-- Embeds `str.lower()` for the ASCII type tags Canvas uses. -/
def pyLower (s : String) : String :=
  String.mk (s.toList.map Char.toLower)

/-- Translation of one module item into a child work item
(`discover_links`, `content_type == "module"` branch); `none` means the
item is skipped. -/
def mapModuleItem (cid : Int) (nd : Nat) (mi : ModuleItem) : Option (String × Context) :=
  let ct := pyLower mi.type
  if ct = "subheader" then Option.none
  else if ct = "page" then some ("page", ⟨cid, ItemId.str mi.page_url, nd⟩)
  else if ct = "assignment" ∧ mi.quiz_lti = some (JVal.bool true) then
    some ("new_quiz", ⟨cid, ItemId.num mi.content_id, nd⟩)
  else if ct = "assignment" ∨ ct = "discussion" ∨ ct = "quiz" then
    some (ct, ⟨cid, ItemId.num mi.content_id, nd⟩)
  else if ct = "externalurl" ∨ ct = "externaltool" then
    match pyOrStr mi.external_url mi.url with
    | some u => some ("external_link", ⟨cid, ItemId.str u, nd⟩)
    | none => Option.none
  else some (ct, ⟨cid, ItemId.num mi.id, nd⟩)

/-- Embeds `CanvasCrawler.discover_links`: type-specific structured expansion. -/
def discover_links (client : Client) (ct : String) (ctx : Context) :
    List (String × Context) :=
  let cid := ctx.course_id
  let nd := ctx.depth + 1
  if ct = "modules" then
    (client.get_modules cid).map (fun m => ("module", (⟨cid, ItemId.num m.id, nd⟩ : Context)))
  else if ct = "module" then
    (client.get_module_items cid ctx.item_id).filterMap (mapModuleItem cid nd)
  else if ct = "assignments" then
    (client.get_assignments cid).map (fun a => ("assignment", (⟨cid, ItemId.num a.id, nd⟩ : Context)))
  else if ct = "pages" then
    (client.get_pages cid).map (fun p => ("page", (⟨cid, ItemId.num p.id, nd⟩ : Context)))
  else if ct = "announcements" then
    (client.get_announcements cid).map (fun a => ("announcement", (⟨cid, ItemId.num a.id, nd⟩ : Context)))
  else []

/-- Embeds `CanvasCrawler._enqueue`: append to the FIFO only when a handler is
registered for the content type (otherwise an error is logged and the
queue is unchanged). -/
def enqueue (q : List (String × Context)) (ct : String) (ctx : Context) :
    List (String × Context) :=
  if has_handler ct then q ++ [(ct, ctx)] else q

/-- The structured-expansion enqueue loop. -/
def enqAll (q : List (String × Context)) (links : List (String × Context)) :
    List (String × Context) :=
  links.foldl (fun q l => enqueue q l.1 l.2) q

/-- One iteration of the href loop: classified links are enqueued under
their classified type and id; unclassified absolute http(s) links are
enqueued as terminal `external_link` items; anything else is ignored. -/
def hrefEnqueue (cid : Int) (nd : Nat) (base : String)
    (q : List (String × Context)) (href : String) : List (String × Context) :=
  match classify_link href base with
  | some (ct2, iid) => enqueue q ct2 ⟨cid, iid, nd⟩
  | none =>
      if pyStartsWith href "http://" || pyStartsWith href "https://" then
        enqueue q "external_link" ⟨cid, ItemId.str href, nd⟩
      else q

def hrefEnqAll (cid : Int) (nd : Nat) (base : String)
    (q : List (String × Context)) (hrefs : List String) : List (String × Context) :=
  hrefs.foldl (hrefEnqueue cid nd base) q

/-- Embeds `server_url.rstrip("/")`. -/
def rstripSlash (s : String) : String :=
  String.mk ((s.toList.reverse.dropWhile (fun c => c = '/')).reverse)

/-- Embeds `parsed.get("body", "")` as fed to `extract_hrefs` (which coerces a
falsy body to the empty string). -/
def bodyOf (p : Dict) : String :=
  match dgetD p "body" (JVal.str "") with
  | .str s => s
  | _ => ""

/-- The mutable state of `CanvasCrawler.run`: the FIFO queue, the visited
set, and a ghost log of the work items dispatched to a handler (in
dispatch order). -/
structure CrawlState where
  queue : List (String × Context)
  seen : List (String × ItemId)
  dispatched : List (String × Context)
deriving DecidableEq, Repr

/-- One iteration of the `while queue:` loop of `CanvasCrawler.run`:
depth gate, visited gate, mark seen, dispatch (`Except.error` is the
caught per-item exception), then structured and href-based expansion
unless the handler returned no record or the item is an external link. -/
def step (env : Env) (limit : Nat) (s : CrawlState) : CrawlState :=
  match s.queue with
  | [] => s
  | (ct, ctx) :: rest =>
      if ctx.depth > limit then { s with queue := rest }
      else if s.seen.contains (ct, ctx.item_id) then { s with queue := rest }
      else
        let seen' := (ct, ctx.item_id) :: s.seen
        if has_handler ct then
          let disp' := s.dispatched ++ [(ct, ctx)]
          match env.runHandler ct (mkHCtx ct ctx) with
          | .error _ => { queue := rest, seen := seen', dispatched := disp' }
          | .ok Option.none => { queue := rest, seen := seen', dispatched := disp' }
          | .ok (some parsed) =>
              if ct = "external_link" then
                { queue := rest, seen := seen', dispatched := disp' }
              else
                let base := rstripSlash env.client.server_url
                let nd := ctx.depth + 1
                let q1 := enqAll rest (discover_links env.client ct ctx)
                let q2 := hrefEnqAll ctx.course_id nd base q1
                    (env.extractHrefs (bodyOf parsed))
                { queue := q2, seen := seen', dispatched := disp' }
        else
          { queue := rest, seen := seen', dispatched := s.dispatched }

/-- The crawl loop, fuel-bounded: each unit of fuel is one `while`
iteration. -/
def runLoop (env : Env) (limit : Nat) : Nat → CrawlState → CrawlState
  | 0, s => s
  | fuel + 1, s =>
      match s.queue with
      | [] => s
      | _ :: _ => runLoop env limit fuel (step env limit s)

/-- Embeds `CanvasCrawler.run`: seed the queue, then loop. -/
def crawlerRun (env : Env) (limit : Nat) (cid : Int) (fuel : Nat) : CrawlState :=
  runLoop env limit fuel { queue := _seed cid, seen := [], dispatched := [] }

/-! ## Helper lemmas -/

theorem firstMatch_eq_none {rows : List PatternRow} {l : List Char}
    (h : ∀ row ∈ rows, row l = Option.none) : firstMatch rows l = Option.none := by
  induction rows with
  | nil => rfl
  | cons r rest ih =>
      unfold firstMatch
      rw [h r (List.mem_cons_self r rest)]
      exact ih (fun row hrow => h row (List.mem_cons_of_mem r hrow))

theorem mem_enqueue {q : List (String × Context)} {ct : String} {ctx : Context}
    {x : String × Context} (hx : x ∈ enqueue q ct ctx) : x ∈ q ∨ x = (ct, ctx) := by
  unfold enqueue at hx
  split at hx
  · rcases List.mem_append.mp hx with h | h
    · exact Or.inl h
    · exact Or.inr (List.mem_singleton.mp h)
  · exact Or.inl hx

theorem mem_enqAll {links : List (String × Context)} :
    ∀ {q x}, x ∈ enqAll q links → x ∈ q ∨ x ∈ links := by
  induction links with
  | nil => exact fun hx => Or.inl hx
  | cons l ls ih =>
      intro q x hx
      unfold enqAll at hx
      rw [List.foldl_cons] at hx
      rcases ih hx with h | h
      · rcases mem_enqueue h with h' | h'
        · exact Or.inl h'
        · subst h'
          exact Or.inr (List.mem_cons_self _ _)
      · exact Or.inr (List.mem_cons_of_mem _ h)

theorem mem_hrefEnqueue {cid : Int} {nd : Nat} {base : String}
    {q : List (String × Context)} {href : String} {x : String × Context}
    (hx : x ∈ hrefEnqueue cid nd base q href) : x ∈ q ∨ x.2.depth = nd := by
  unfold hrefEnqueue at hx
  split at hx
  · rcases mem_enqueue hx with h | h
    · exact Or.inl h
    · subst h; exact Or.inr rfl
  · split at hx
    · rcases mem_enqueue hx with h | h
      · exact Or.inl h
      · subst h; exact Or.inr rfl
    · exact Or.inl hx

theorem mem_hrefEnqAll {cid : Int} {nd : Nat} {base : String}
    {hrefs : List String} :
    ∀ {q x}, x ∈ hrefEnqAll cid nd base q hrefs → x ∈ q ∨ x.2.depth = nd := by
  induction hrefs with
  | nil => exact fun hx => Or.inl hx
  | cons h hs ih =>
      intro q x hx
      unfold hrefEnqAll at hx
      rw [List.foldl_cons] at hx
      rcases ih hx with h' | h'
      · exact mem_hrefEnqueue h'
      · exact Or.inr h'

theorem mapModuleItem_depth {cid : Int} {nd : Nat} {mi : ModuleItem}
    {x : String × Context} (h : mapModuleItem cid nd mi = some x) :
    x.2.depth = nd := by
  simp only [mapModuleItem] at h
  split at h
  · exact Option.noConfusion h
  split at h
  · cases h; rfl
  split at h
  · cases h; rfl
  split at h
  · cases h; rfl
  split at h
  · split at h
    · cases h; rfl
    · exact Option.noConfusion h
  cases h; rfl

theorem discover_links_depth {client : Client} {ct : String} {ctx : Context}
    {x : String × Context} (hx : x ∈ discover_links client ct ctx) :
    x.2.depth = ctx.depth + 1 := by
  unfold discover_links at hx
  split at hx
  · obtain ⟨m, _, rfl⟩ := List.mem_map.mp hx; rfl
  · split at hx
    · obtain ⟨mi, _, h⟩ := List.mem_filterMap.mp hx
      exact mapModuleItem_depth h
    · split at hx
      · obtain ⟨a, _, rfl⟩ := List.mem_map.mp hx; rfl
      · split at hx
        · obtain ⟨p, _, rfl⟩ := List.mem_map.mp hx; rfl
        · split at hx
          · obtain ⟨a, _, rfl⟩ := List.mem_map.mp hx; rfl
          · exact absurd hx (List.not_mem_nil x)

theorem step_queue_mem {env : Env} {limit : Nat} {ct : String} {ctx : Context}
    {rest : List (String × Context)} {seen : List (String × ItemId)}
    {disp : List (String × Context)} {x : String × Context}
    (hx : x ∈ (step env limit ⟨(ct, ctx) :: rest, seen, disp⟩).queue) :
    x ∈ rest ∨ x.2.depth = ctx.depth + 1 := by
  simp only [step] at hx
  split at hx
  · exact Or.inl hx
  split at hx
  · exact Or.inl hx
  split at hx
  · split at hx
    · exact Or.inl hx
    · exact Or.inl hx
    · split at hx
      · exact Or.inl hx
      · rcases mem_hrefEnqAll hx with h | h
        · rcases mem_enqAll h with h' | h'
          · exact Or.inl h'
          · exact Or.inr (discover_links_depth h')
        · exact Or.inr h
  · exact Or.inl hx

theorem step_dispatched_depth {env : Env} {limit : Nat} {s : CrawlState}
    (h : ∀ x ∈ s.dispatched, x.2.depth ≤ limit) :
    ∀ x ∈ (step env limit s).dispatched, x.2.depth ≤ limit := by
  obtain ⟨q, seen, disp⟩ := s
  cases q with
  | nil => exact h
  | cons hd tl =>
      obtain ⟨ct, ctx⟩ := hd
      intro x hx
      simp only [step] at hx
      split at hx
      · exact h x hx
      rename_i hdl
      have hpush : ∀ y ∈ disp ++ [(ct, ctx)], y.2.depth ≤ limit := by
        intro y hy
        rcases List.mem_append.mp hy with h' | h'
        · exact h y h'
        · rw [List.mem_singleton] at h'
          subst h'
          exact Nat.le_of_not_lt hdl
      split at hx
      · exact h x hx
      split at hx
      · split at hx
        · exact hpush x hx
        · exact hpush x hx
        · split at hx
          · exact hpush x hx
          · exact hpush x hx
      · exact h x hx

theorem runLoop_preserves (env : Env) (limit : Nat) (P : CrawlState → Prop)
    (hstep : ∀ s, P s → P (step env limit s)) :
    ∀ (fuel : Nat) (s : CrawlState), P s → P (runLoop env limit fuel s) := by
  intro fuel
  induction fuel with
  | zero => exact fun s h => h
  | succ f ih =>
      intro s h
      simp only [runLoop]
      split
      · exact h
      · exact ih _ (hstep s h)

/-- The `(content_type, item_id)` dedup key of a dispatched work item. -/
def dispatchKey (x : String × Context) : String × ItemId :=
  (x.1, x.2.item_id)

theorem key_inv_push {disp : List (String × Context)}
    {seen : List (String × ItemId)} {ct : String} {ctx : Context}
    (h1 : (disp.map dispatchKey).Nodup)
    (h2 : ∀ k ∈ disp.map dispatchKey, k ∈ seen)
    (hnotin : (ct, ctx.item_id) ∉ seen) :
    ((disp ++ [(ct, ctx)]).map dispatchKey).Nodup ∧
    ∀ k ∈ (disp ++ [(ct, ctx)]).map dispatchKey, k ∈ (ct, ctx.item_id) :: seen := by
  constructor
  · rw [List.map_append, List.nodup_append]
    refine ⟨h1, List.nodup_singleton _, ?_⟩
    intro a ha hb
    rw [List.map_singleton, List.mem_singleton] at hb
    subst hb
    exact hnotin (h2 _ ha)
  · intro k hk
    rw [List.map_append, List.mem_append] at hk
    rcases hk with hk | hk
    · exact List.mem_cons_of_mem _ (h2 k hk)
    · rw [List.map_singleton, List.mem_singleton] at hk
      subst hk
      exact List.mem_cons_self _ _

theorem step_key_inv {env : Env} {limit : Nat} {s : CrawlState}
    (h : (s.dispatched.map dispatchKey).Nodup ∧
      ∀ k ∈ s.dispatched.map dispatchKey, k ∈ s.seen) :
    ((step env limit s).dispatched.map dispatchKey).Nodup ∧
    ∀ k ∈ (step env limit s).dispatched.map dispatchKey, k ∈ (step env limit s).seen := by
  obtain ⟨h1, h2⟩ := h
  obtain ⟨q, seen, disp⟩ := s
  cases q with
  | nil => exact ⟨h1, h2⟩
  | cons hd tl =>
      obtain ⟨ct, ctx⟩ := hd
      simp only [step]
      split
      · exact ⟨h1, h2⟩
      split
      · exact ⟨h1, h2⟩
      rename_i hseen
      have hnotin : (ct, ctx.item_id) ∉ seen := by
        intro hmem
        exact hseen (List.elem_iff.mpr hmem)
      have hlift : ∀ k ∈ disp.map dispatchKey, k ∈ (ct, ctx.item_id) :: seen :=
        fun k hk => List.mem_cons_of_mem _ (h2 k hk)
      split
      · split
        · exact key_inv_push h1 h2 hnotin
        · exact key_inv_push h1 h2 hnotin
        · split
          · exact key_inv_push h1 h2 hnotin
          · exact key_inv_push h1 h2 hnotin
      · exact ⟨h1, hlift⟩

theorem goodSeg_foldl {l : List (List Char)} :
    ∀ {acc : List (List Char)}, (∀ p ∈ acc, goodSeg p) →
      ∀ p ∈ l.foldl normStep acc, goodSeg p := by
  induction l with
  | nil => exact fun h => h
  | cons hd tl ih =>
      intro acc hacc
      rw [List.foldl_cons]
      apply ih
      intro p hp
      unfold normStep at hp
      split at hp
      · exact hacc p hp
      split at hp
      · exact hacc p (List.mem_of_mem_dropLast hp)
      rcases List.mem_append.mp hp with h' | h'
      · exact hacc p h'
      · rw [List.mem_singleton] at h'
        subst h'
        rename_i hA hB
        intro hcon
        rcases hcon with hcon | hcon | hcon
        · exact hA (Or.inl hcon)
        · exact hA (Or.inr hcon)
        · exact hB hcon

theorem sanitizeParts_good {name : String} :
    ∀ p ∈ sanitizeParts name, goodSeg p := by
  unfold sanitizeParts
  exact goodSeg_foldl (fun p hp => absurd hp (List.not_mem_nil p))

theorem resolvePath_of_good {parts : List (List Char)}
    (h : ∀ p ∈ parts, goodSeg p) :
    ∀ root, resolvePath root parts = root ++ parts := by
  induction parts with
  | nil => intro root; simp [resolvePath]
  | cons hd tl ih =>
      intro root
      have hhd : goodSeg hd := h hd (List.mem_cons_self _ _)
      have hstep : normStep root hd = root ++ [hd] := by
        unfold normStep
        rw [if_neg (fun hc => hhd (hc.elim Or.inl (fun hc' => Or.inr (Or.inl hc')))),
          if_neg (fun hc => hhd (Or.inr (Or.inr hc)))]
      unfold resolvePath
      rw [List.foldl_cons, hstep]
      have htl := ih (fun p hp => h p (List.mem_cons_of_mem _ hp)) (root ++ [hd])
      unfold resolvePath at htl
      rw [htl]
      simp

theorem contains_false_not {α} [BEq α] {l : List α} {a : α}
    (h : l.contains a = false) : ¬(l.contains a = true) := by
  simp [h]

theorem step_drop {env : Env} {limit : Nat} {ct : String} {ctx : Context}
    {rest : List (String × Context)} {seen : List (String × ItemId)}
    {disp : List (String × Context)} (hdrop : ctx.depth > limit) :
    step env limit ⟨(ct, ctx) :: rest, seen, disp⟩ = ⟨rest, seen, disp⟩ := by
  simp only [step]
  rw [if_pos hdrop]

theorem step_norecord {env : Env} {limit : Nat} {ct : String} {ctx' : Context}
    {rest : List (String × Context)} {seen : List (String × ItemId)}
    {disp : List (String × Context)}
    (hdepth : ¬ctx'.depth > limit)
    (hseen : seen.contains (ct, ctx'.item_id) = false)
    (hh : has_handler ct = true)
    (hrun : env.runHandler ct (mkHCtx ct ctx') = Except.ok Option.none) :
    step env limit ⟨(ct, ctx') :: rest, seen, disp⟩ =
      ⟨rest, (ct, ctx'.item_id) :: seen, disp ++ [(ct, ctx')]⟩ := by
  simp only [step]
  rw [if_neg hdepth, if_neg (contains_false_not hseen), if_pos hh]
  simp only [hrun]

theorem step_dispatch_log {env : Env} {limit : Nat} {ct : String} {ctx' : Context}
    {rest : List (String × Context)} {seen : List (String × ItemId)}
    {disp : List (String × Context)}
    (hdepth : ¬ctx'.depth > limit)
    (hseen : seen.contains (ct, ctx'.item_id) = false)
    (hh : has_handler ct = true) :
    (step env limit ⟨(ct, ctx') :: rest, seen, disp⟩).dispatched =
      disp ++ [(ct, ctx')] := by
  simp only [step]
  rw [if_neg hdepth, if_neg (contains_false_not hseen), if_pos hh]
  split
  · rfl
  · rfl
  · split
    · rfl
    · rfl

theorem step_expand {env : Env} {limit : Nat} {ct : String} {ctx' : Context}
    {rest : List (String × Context)} {seen : List (String × ItemId)}
    {disp : List (String × Context)} {parsed : Dict}
    (hdepth : ¬ctx'.depth > limit)
    (hseen : seen.contains (ct, ctx'.item_id) = false)
    (hh : has_handler ct = true)
    (hrun : env.runHandler ct (mkHCtx ct ctx') = Except.ok (some parsed))
    (hext : ¬ct = "external_link") :
    step env limit ⟨(ct, ctx') :: rest, seen, disp⟩ =
      ⟨hrefEnqAll ctx'.course_id (ctx'.depth + 1) (rstripSlash env.client.server_url)
          (enqAll rest (discover_links env.client ct ctx'))
          (env.extractHrefs (bodyOf parsed)),
        (ct, ctx'.item_id) :: seen, disp ++ [(ct, ctx')]⟩ := by
  simp only [step]
  rw [if_neg hdepth, if_neg (contains_false_not hseen), if_pos hh]
  simp only [hrun]
  rw [if_neg hext]

/-! ## Claim theorems -/

/-- C9: `classify_link` maps `/courses/5/pages/intro` (base `https://x`)
to `("page", "intro")` and `/courses/5/assignments/42` to
`("assignment", 42)`, and returns none for any link on which every row of
the ordered pattern table fails (first match wins). -/
theorem classify_link_spec :
    classify_link "/courses/5/pages/intro" "https://x" =
      some ("page", ItemId.str "intro") ∧
    classify_link "/courses/5/assignments/42" "https://x" =
      some ("assignment", ItemId.num 42) ∧
    ∀ href base : String,
      (∀ row ∈ canvasPatterns, row (classifyPathOf href base) = Option.none) →
      classify_link href base = Option.none := by
  refine ⟨by decide, by decide, ?_⟩
  intro href base h
  unfold classify_link
  exact firstMatch_eq_none h

/-- C9 witness: a link on an unrelated external domain matches no pattern
and classifies to none. -/
theorem classify_link_spec_witness :
    classify_link "https://elsewhere.example/somewhere" "https://x" = Option.none :=
  classify_link_spec.2.2 "https://elsewhere.example/somewhere" "https://x" (by decide)

/-- C5: every segment surviving `_sanitize_zip_member_path` is a real
path component (never empty, `.` or `..`), so resolving the sanitized
relative path against any extraction root only appends below the root:
the root is always a prefix of the resolved destination, and a successful
sanitization is exactly the surviving segments joined with `/`. -/
theorem zip_member_containment (name : String) (root : List (List Char)) :
    (∀ p ∈ sanitizeParts name, goodSeg p) ∧
    resolvePath root (sanitizeParts name) = root ++ sanitizeParts name ∧
    root <+: resolvePath root (sanitizeParts name) ∧
    ∀ r, sanitize_zip_member_path name = some r →
      r = String.mk (joinSep '/' (sanitizeParts name)) := by
  have hg : ∀ p ∈ sanitizeParts name, goodSeg p := sanitizeParts_good
  have hr := resolvePath_of_good hg root
  refine ⟨hg, hr, ?_, ?_⟩
  · rw [hr]
    exact List.prefix_append root _
  · intro r h
    simp only [sanitize_zip_member_path] at h
    split at h
    · exact Option.noConfusion h
    · cases h
      rfl

/-- C5 witness: the traversal attempt `../../escape.txt` sanitizes to the
in-root relative path `escape.txt`, and the extraction root stays a
prefix of the resolved destination. -/
theorem zip_member_containment_witness :
    ([['o', 'u', 't']] : List (List Char)) <+:
      resolvePath [['o', 'u', 't']] (sanitizeParts "../../escape.txt") ∧
    sanitize_zip_member_path "../../escape.txt" = some "escape.txt" :=
  ⟨(zip_member_containment "../../escape.txt" [['o', 'u', 't']]).2.2.1, by decide⟩

def subheaderItem : ModuleItem :=
  ⟨"SubHeader", Option.none, "", 0, Option.none, Option.none, 11⟩

def quizLtiItem : ModuleItem :=
  ⟨"Assignment", some (JVal.bool true), "", 77, Option.none, Option.none, 12⟩

def introPageItem : ModuleItem :=
  ⟨"Page", Option.none, "intro", 0, Option.none, Option.none, 13⟩

def moduleMapClient : Client :=
  ⟨fun _ => [], fun _ _ => [subheaderItem, quizLtiItem, introPageItem],
    fun _ => [], fun _ => [], fun _ => [], "https://x"⟩

/-- C4: expanding a module whose items are a subheader, an assignment
module item with `quiz_lti = true` and `content_id = 77`, and a page with
slug `intro` yields exactly `("new_quiz", 77)` and `("page", "intro")`:
the subheader produces no child and `("assignment", 77)` never appears. -/
theorem module_item_mapping :
    discover_links moduleMapClient "module" ⟨5, ItemId.num 1, 0⟩ =
      [("new_quiz", ⟨5, ItemId.num 77, 1⟩), ("page", ⟨5, ItemId.str "intro", 1⟩)] ∧
    ("assignment", (⟨5, ItemId.num 77, 1⟩ : Context)) ∉
      discover_links moduleMapClient "module" ⟨5, ItemId.num 1, 0⟩ := by
  decide

/-- C3 counterexample: the seed list contains no modules-list and no
assignments-list work item; its only content type is `announcements`. -/
theorem seed_counterexample :
    ("modules", (⟨10, ItemId.none, 0⟩ : Context)) ∉ _seed 10 ∧
    ("assignments", (⟨10, ItemId.none, 0⟩ : Context)) ∉ _seed 10 ∧
    (_seed 10).map Prod.fst = ["announcements"] := by
  decide

/-- C3 amended: `run()` initializes the FIFO queue with exactly one seed
work item, the announcements list at depth 0. -/
theorem seed_is_announcements (cid : Int) :
    _seed cid = [("announcements", ⟨cid, ItemId.none, 0⟩)] ∧
    ∀ (env : Env) (limit fuel : Nat),
      crawlerRun env limit cid fuel =
        runLoop env limit fuel
          ⟨[("announcements", ⟨cid, ItemId.none, 0⟩)], [], []⟩ :=
  ⟨rfl, fun _ _ _ => rfl⟩

/-- C2 counterexample: re-extracting the same archive member `a.txt`
against the files left by the first pass dedupes the destination to
`a(1).txt` and emits a JSON record at a different mirrored path, so the
second run's JSON outputs differ from the first run's. -/
theorem rerun_not_byte_identical :
    (extractZipMembers "7" [] ["a.txt"]).2 =
      [("files/7__zip/a.txt", "json_output/files/7__zip/a.txt.json")] ∧
    (extractZipMembers "7" (extractZipMembers "7" [] ["a.txt"]).1 ["a.txt"]).2 =
      [("files/7__zip/a(1).txt", "json_output/files/7__zip/a(1).txt.json")] ∧
    (extractZipMembers "7" (extractZipMembers "7" [] ["a.txt"]).1 ["a.txt"]).2 ≠
      (extractZipMembers "7" [] ["a.txt"]).2 := by
  decide

/-- C2 amended: `write_json` itself is idempotent — the filename is a
function of the record and a repeated write overwrites with identical
contents — but archive expansion is not: the second pass over an
unchanged archive collides with the first pass's files and emits
`(1)`-renamed artifacts and JSON records. -/
theorem write_json_idempotent :
    (∀ (fs : JsonFS) (r : Dict), write_json (write_json fs r) r = write_json fs r) ∧
    (extractZipMembers "7" (extractZipMembers "7" [] ["a.txt"]).1 ["a.txt"]).2 ≠
      (extractZipMembers "7" [] ["a.txt"]).2 := by
  constructor
  · intro fs r
    funext p
    unfold write_json
    split
    · rfl
    · rfl
  · decide

/-- C6: structured expansion children carry depth parent + 1; everything
the loop body adds to the queue beyond the remaining items likewise sits
one level below the dequeued parent (covering href classification and
external links); and no work item whose depth exceeds the depth limit is
ever dispatched to a handler over an entire run. -/
theorem depth_discipline :
    (∀ (client : Client) (ct : String) (ctx : Context) (x : String × Context),
      x ∈ discover_links client ct ctx → x.2.depth = ctx.depth + 1) ∧
    (∀ (env : Env) (limit : Nat) (ct : String) (ctx : Context)
      (rest : List (String × Context)) (seen : List (String × ItemId))
      (disp : List (String × Context)) (x : String × Context),
      x ∈ (step env limit ⟨(ct, ctx) :: rest, seen, disp⟩).queue →
      x ∈ rest ∨ x.2.depth = ctx.depth + 1) ∧
    (∀ (env : Env) (limit : Nat) (cid : Int) (fuel : Nat) (x : String × Context),
      x ∈ (crawlerRun env limit cid fuel).dispatched → x.2.depth ≤ limit) := by
  refine ⟨fun _ _ _ _ hx => discover_links_depth hx,
    fun _ _ _ _ _ _ _ _ hx => step_queue_mem hx, ?_⟩
  intro env limit cid fuel x hx
  have h := runLoop_preserves env limit
    (fun s => ∀ y ∈ s.dispatched, y.2.depth ≤ limit)
    (fun _ hs => step_dispatched_depth hs) fuel ⟨_seed cid, [], []⟩
    (fun y hy => absurd hy (List.not_mem_nil y))
  exact h x hx

def depthWitnessClient : Client :=
  ⟨fun _ => [⟨2⟩], fun _ _ => [], fun _ => [], fun _ => [], fun _ => [], "https://x"⟩

/-- C6 witness: the module child discovered from the modules list at
depth 0 has depth 1. -/
theorem depth_discipline_witness :
    (("module", (⟨1, ItemId.num 2, 1⟩ : Context)) : String × Context).2.depth = 0 + 1 :=
  depth_discipline.1 depthWitnessClient "modules" ⟨1, ItemId.none, 0⟩
    ("module", ⟨1, ItemId.num 2, 1⟩) (by decide)

/-- C7: over an entire run, the `(content_type, item_id)` keys of the
work items dispatched to handlers are pairwise distinct — each such pair
is handled, and hence persisted, at most once. -/
theorem dispatch_at_most_once (env : Env) (limit : Nat) (cid : Int) (fuel : Nat) :
    ((crawlerRun env limit cid fuel).dispatched.map dispatchKey).Nodup := by
  have h := runLoop_preserves env limit
    (fun s => (s.dispatched.map dispatchKey).Nodup ∧
      ∀ k ∈ s.dispatched.map dispatchKey, k ∈ s.seen)
    (fun _ hs => step_key_inv hs) fuel ⟨_seed cid, [], []⟩
    ⟨List.nodup_nil, fun k hk => absurd hk (List.not_mem_nil k)⟩
  exact h.1

/-- C10: dropping a dequeued item for exceeding the depth limit changes
nothing but the queue — the visited set and the dispatch log are
untouched — and a later dequeue of the same content type against the same
visited set, at a depth within the limit, is dispatched. -/
theorem depth_drop_frame (env : Env) (limit : Nat) (ct : String)
    (ctx ctx' : Context) (rest rest' : List (String × Context))
    (seen : List (String × ItemId)) (disp : List (String × Context))
    (hdrop : ctx.depth > limit)
    (hle : ¬ctx'.depth > limit)
    (hseen : seen.contains (ct, ctx'.item_id) = false)
    (hh : has_handler ct = true) :
    step env limit ⟨(ct, ctx) :: rest, seen, disp⟩ = ⟨rest, seen, disp⟩ ∧
    (step env limit ⟨(ct, ctx') :: rest', seen, disp⟩).dispatched =
      disp ++ [(ct, ctx')] :=
  ⟨step_drop hdrop, step_dispatch_log hle hseen hh⟩

def noRecordEnv : Env :=
  ⟨⟨fun _ => [], fun _ _ => [], fun _ => [], fun _ => [], fun _ => [], "https://x"⟩,
    fun _ _ => Except.ok Option.none, fun _ => []⟩

/-- C10 witness: a depth-3 page against limit 2 is dropped leaving seen
and dispatch log empty, and the same page redequeued at depth 1 is
dispatched. -/
theorem depth_drop_frame_witness :
    step noRecordEnv 2 ⟨[("page", ⟨1, ItemId.str "a", 3⟩)], [], []⟩ =
      ⟨[], [], []⟩ ∧
    (step noRecordEnv 2 ⟨[("page", ⟨1, ItemId.str "a", 1⟩)], [], []⟩).dispatched =
      [] ++ [("page", ⟨1, ItemId.str "a", 1⟩)] :=
  depth_drop_frame noRecordEnv 2 "page" ⟨1, ItemId.str "a", 3⟩ ⟨1, ItemId.str "a", 1⟩
    [] [] [] [] (by decide) (by decide) (by decide) (by decide)

def newQuizLockedData : Dict :=
  [("locked_for_user", JVal.bool true), ("quiz_lti", JVal.bool true), ("id", JVal.num 3)]

/-- C8 counterexample: an assignment payload that is both locked and
flagged `quiz_lti` takes the locked-stub path first — the handler returns
a record and writes the stub JSON, contradicting the claim that every
`quiz_lti = true` fetch yields no record and no write. -/
theorem newquiz_locked_counterexample :
    (assignmentHandlerRun ⟨"assignment", 1, ItemId.num 3, 1⟩ newQuizLockedData).1 ≠
      Option.none ∧
    Effect.writeJson (parse_locked ⟨"assignment", 1, ItemId.num 3, 1⟩ newQuizLockedData) ∈
      (assignmentHandlerRun ⟨"assignment", 1, ItemId.num 3, 1⟩ newQuizLockedData).2 := by
  decide

/-- C8 amended: for a non-locked assignment payload with `quiz_lti`
true, the handler writes nothing, logs the skip, and returns no record;
a dispatched item whose handler returns no record causes no expansion:
the loop only pops the queue, marks the key seen and logs the dispatch. -/
theorem newquiz_safety_net (ctx : HCtx) (d : Dict) (env : Env) (limit : Nat)
    (ct : String) (ctx' : Context) (rest : List (String × Context))
    (seen : List (String × ItemId)) (disp : List (String × Context))
    (hq : dget d "quiz_lti" = JVal.bool true)
    (hnl : ¬dget d "locked_for_user" = JVal.bool true)
    (hrun : env.runHandler ct (mkHCtx ct ctx') = Except.ok Option.none)
    (hdepth : ¬ctx'.depth > limit)
    (hseen : seen.contains (ct, ctx'.item_id) = false)
    (hh : has_handler ct = true) :
    assignmentHandlerRun ctx d = (Option.none, [Effect.logInfo]) ∧
    step env limit ⟨(ct, ctx') :: rest, seen, disp⟩ =
      ⟨rest, (ct, ctx'.item_id) :: seen, disp ++ [(ct, ctx')]⟩ := by
  constructor
  · unfold assignmentHandlerRun
    rw [if_neg hnl, if_pos hq]
  · exact step_norecord hdepth hseen hh hrun

def newQuizData : Dict := [("quiz_lti", JVal.bool true), ("id", JVal.num 3)]

/-- C8 witness: a concrete misrouted New Quiz is skipped with no record
and only an info log, and the engine pops it without enqueueing anything. -/
theorem newquiz_safety_net_witness :
    assignmentHandlerRun ⟨"assignment", 1, ItemId.num 3, 1⟩ newQuizData =
      (Option.none, [Effect.logInfo]) ∧
    step noRecordEnv 5 ⟨[("assignment", ⟨1, ItemId.num 3, 1⟩)], [], []⟩ =
      ⟨[], [("assignment", ItemId.num 3)], [] ++ [("assignment", ⟨1, ItemId.num 3, 1⟩)]⟩ :=
  newquiz_safety_net ⟨"assignment", 1, ItemId.num 3, 1⟩ newQuizData noRecordEnv 5
    "assignment" ⟨1, ItemId.num 3, 1⟩ [] [] [] (by decide) (by decide) rfl
    (by decide) (by decide) (by decide)

def lockedFileData : Dict :=
  [ ("locked_for_user", JVal.bool true)
  , ("url", JVal.str "https://files.example/f.bin")
  , ("id", JVal.num 9) ]

def lockedModuleData : Dict :=
  [("locked_for_user", JVal.bool true), ("id", JVal.num 4)]

def lockedModuleClient : Client :=
  ⟨fun _ => [], fun _ _ => [introPageItem], fun _ => [], fun _ => [],
    fun _ => [], "https://x"⟩

/-- A crawl environment whose module handler meets the locked payload
`lockedModuleData`: the generic handler run then returns exactly the
`parse_locked` stub of its context, whatever the parse function is. -/
def lockedModuleEnv : Env :=
  ⟨lockedModuleClient, fun _ hctx => Except.ok (some (parse_locked hctx lockedModuleData)),
    fun _ => []⟩

/-- C1 counterexample: the claim fails twice on locked payloads.  The
file handler's overridden save downloads the binary for a locked file
that still carries a `url` (a secondary artifact beyond the JSON stub),
and the engine still performs structured expansion for a locked module —
its page item is enqueued even though the handler returned the locked
stub. -/
theorem locked_claim_counterexample :
    Effect.download "https://files.example/f.bin" "locked/9.html" ∈
      (fileHandlerRun ⟨"file", 5, ItemId.num 9, 2⟩ (Raw.dict lockedFileData)).2 ∧
    (step lockedModuleEnv 5 ⟨[("module", ⟨1, ItemId.num 4, 0⟩)], [], []⟩).queue =
      [("page", ⟨1, ItemId.str "intro", 1⟩)] := by
  decide

/-- C1 amended: a locked payload yields the default stub with empty body;
the generic run returns the stub and its only filesystem write is the
stub JSON (no HTML, because the empty body is falsy); and a handler
record with empty body adds nothing to the queue beyond structured
expansion, because the href extractor finds no links in an empty body.
(The file handler's overridden save and the engine's structured expansion
are the exceptions recorded in the counterexample.) -/
theorem locked_content_behaviour
    (ctx : HCtx) (d : Dict) (parse : HCtx → Raw → Dict) (env : Env) (limit : Nat)
    (ct : String) (ctx' : Context) (rest : List (String × Context))
    (seen : List (String × ItemId)) (disp : List (String × Context)) (parsed : Dict)
    (hlock : dget d "locked_for_user" = JVal.bool true)
    (hrun : env.runHandler ct (mkHCtx ct ctx') = Except.ok (some parsed))
    (hbody : bodyOf parsed = "")
    (hhrefs : env.extractHrefs "" = [])
    (hdepth : ¬ctx'.depth > limit)
    (hseen : seen.contains (ct, ctx'.item_id) = false)
    (hh : has_handler ct = true)
    (hext : ¬ct = "external_link") :
    dget (parse_locked ctx d) "body" = JVal.str "" ∧
    (contentHandlerRun parse defaultSave ctx (Raw.dict d)).1 = some (parse_locked ctx d) ∧
    fsWrites (contentHandlerRun parse defaultSave ctx (Raw.dict d)).2 =
      [Effect.writeJson (parse_locked ctx d)] ∧
    (step env limit ⟨(ct, ctx') :: rest, seen, disp⟩).queue =
      enqAll rest (discover_links env.client ct ctx') := by
  have hb : dget (parse_locked ctx d) "body" = JVal.str "" := rfl
  have hcr : contentHandlerRun parse defaultSave ctx (Raw.dict d) =
      (some (parse_locked ctx d), defaultSave (parse_locked ctx d) ++ [Effect.logWarn]) := by
    simp only [contentHandlerRun]
    rw [if_pos hlock]
  have hsave : defaultSave (parse_locked ctx d) = [Effect.writeJson (parse_locked ctx d)] := by
    unfold defaultSave
    rw [hb]
    rfl
  refine ⟨hb, by rw [hcr], ?_, ?_⟩
  · rw [hcr, hsave]
    rfl
  · rw [step_expand hdepth hseen hh hrun hext]
    rw [hbody, hhrefs]
    rfl

def lockedStubRecord : Dict := [("body", JVal.str "")]

def lockedWitnessEnv : Env :=
  ⟨⟨fun _ => [], fun _ _ => [], fun _ => [], fun _ => [], fun _ => [], "https://x"⟩,
    fun _ _ => Except.ok (some lockedStubRecord), fun _ => []⟩

/-- C1 witness: a concrete locked page stub is the handler's whole
output, and dispatching an item whose record has an empty body leaves the
queue with exactly the structured-expansion children. -/
theorem locked_content_behaviour_witness :
    dget (parse_locked ⟨"page", 1, ItemId.str "intro", 2⟩
      [("locked_for_user", JVal.bool true), ("id", JVal.num 8)]) "body" = JVal.str "" ∧
    (step lockedWitnessEnv 5 ⟨[("page", ⟨1, ItemId.str "intro", 2⟩)], [], []⟩).queue =
      enqAll [] (discover_links lockedWitnessEnv.client "page" ⟨1, ItemId.str "intro", 2⟩) := by
  have h := locked_content_behaviour ⟨"page", 1, ItemId.str "intro", 2⟩
    [("locked_for_user", JVal.bool true), ("id", JVal.num 8)] (fun _ _ => [])
    lockedWitnessEnv 5 "page" ⟨1, ItemId.str "intro", 2⟩ [] [] [] lockedStubRecord
    (by decide) rfl (by decide) rfl (by decide) (by decide) (by decide) (by decide)
  exact ⟨h.1, h.2.2.2⟩
